import Mathlib

/-!
Verification of the italian_derivatives repository (three Python source
files: MistralInterface.py, relationsBuilder.py, dbRelationCleanup.py)
against its natural-language specification.

The Python code is shallowly embedded: external effects (the network call
of `invokeLLM`, the sqlite store, the JSONL files, the interactive
confirmation) are passed explicitly; a raised Python exception is an
explicit error value; Python dict/str/int semantics are modelled on
`List`, `String` (ASCII case folding, as sqlite's NOCASE and the inputs
at hand) and `Int`/`Nat`.
-/

/-! ## MistralInterface.invokeLLM (src/MistralInterface.py, lines 27-88)

The external call `self.genAI_Client.chat.complete` plus the defensive
content extraction of lines 58-72 is abstracted as an oracle giving, for
the n-th call performed, either an extracted content (`none` models "no
content at all": no choices, no message, or a `None` content; `some s`
a string content), a raised `SDKError`, or any other raised exception.
A truthy non-string content (whose `.strip()` raises) behaves exactly
like `otherError` (caught at line 85, break) and is subsumed by it. -/

inductive CallResult where
  | ok (content : Option String)
  | sdkError
  | otherError
deriving DecidableEq

/-- Line 74: `if content:` is Python truthiness — false for `None` and for
the empty string alike; lines 78-81 and 82-84 retry with backoff. -/
def CallResult.isTransient : CallResult → Bool
  | .ok none => true
  | .ok (some c) => c = ""
  | .sdkError => true
  | .otherError => false

/-- What one run of `invokeLLM` observably does: the returned tuple
(`response`, `success`), how many external calls it performed, and the
backoff sleeps it executed, recorded as the multiplier `retryCount` of
each `time.sleep(0.15 * retryCount)`. -/
structure LLMResult where
  response : String
  success : Bool
  calls : Nat
  sleeps : List Nat
deriving DecidableEq

/-- Python `.strip()` (ASCII whitespace, which covers the inputs at
hand), written structurally on the character list so it evaluates by
kernel reduction. -/
def pyStrip (s : String) : String :=
  ⟨((s.data.dropWhile Char.isWhitespace).reverse.dropWhile Char.isWhitespace).reverse⟩

/-- The loop `while retry_counter < attempts` of lines 48-87, with
`fuel = attempts - retry_counter` (each transient failure increments
`retry_counter`, i.e. decrements `fuel`).  `retry` is the current
`retry_counter` (needed for the sleep multiplier), `calls` the number of
external calls performed so far. -/
def invokeLLMAux (oracle : Nat → CallResult) : Nat → Nat → Nat → List Nat → LLMResult
  | 0, _, calls, sleeps => ⟨"", false, calls, sleeps⟩
  | fuel + 1, retry, calls, sleeps =>
    match oracle calls with
    | .ok (some c) =>
      if c = "" then
        invokeLLMAux oracle fuel (retry + 1) (calls + 1) (sleeps ++ [retry + 1])
      else
        ⟨pyStrip c, true, calls + 1, sleeps⟩
    | .ok none =>
        invokeLLMAux oracle fuel (retry + 1) (calls + 1) (sleeps ++ [retry + 1])
    | .sdkError =>
        invokeLLMAux oracle fuel (retry + 1) (calls + 1) (sleeps ++ [retry + 1])
    | .otherError => ⟨"", false, calls + 1, sleeps⟩

/-- `invokeLLM(_prompt, _format, _temperature, attempts)`: the prompt,
format and temperature only shape the external call and are folded into
the oracle. -/
def invokeLLM (oracle : Nat → CallResult) (attempts : Nat) : LLMResult :=
  invokeLLMAux oracle attempts 0 0 []

/-! ## Python values

JSON values as `json.loads` yields them in Python (an object is a dict
with unique, insertion-ordered string keys; numbers are modelled as
integers).  Used by `process_chunk` (the parsed model response) and by
`dbRelationCleanup` (the JSONL records). -/

inductive JValue where
  | jnull
  | jbool (b : Bool)
  | jnum (n : Int)
  | jstr (s : String)
  | jarr (xs : List JValue)
  | jobj (fields : List (String × JValue))

/-- Python truthiness of a JSON-derived value. -/
def JValue.truthy : JValue → Bool
  | .jnull => false
  | .jbool b => b
  | .jnum n => n != 0
  | .jstr s => s != ""
  | .jarr xs => !xs.isEmpty
  | .jobj fs => !fs.isEmpty

/-- `d[k]` lookup on an object's fields (unique keys). -/
def getField (fs : List (String × JValue)) (k : String) : Option JValue :=
  (fs.find? (fun p => p.1 = k)).map (fun p => p.2)

def hasKey (fs : List (String × JValue)) (k : String) : Bool :=
  (fs.find? (fun p => p.1 = k)).isSome

/-- Python `==` between a JSON-derived value and a string literal. -/
def JValue.isStrEq (v : JValue) (s : String) : Bool :=
  match v with
  | .jstr t => t = s
  | _ => false

/-! ## Python string primitives

Modelled on the character list of a `String`; case folding and
whitespace are ASCII (enough for sqlite's NOCASE and the fixed Italian
template markers the code searches for). -/

/-- `s.find(sub, i)` scanning positions i, i+1, ... (fuel counts the
positions left to inspect); -1 when absent, as in Python. -/
def pyFindAux (s sub : List Char) : Nat → Nat → Int
  | _, 0 => -1
  | i, fuel + 1 =>
    if i + sub.length ≤ s.length ∧ sub.isPrefixOf (s.drop i) then (i : Int)
    else pyFindAux s sub (i + 1) fuel

/-- Python `s.find(sub, start)`. -/
def pyFind (s sub : String) (start : Nat) : Int :=
  pyFindAux s.data sub.data start (s.length + 1 - start)

/-- Python `sub in s`. -/
def pyContains (s sub : String) : Bool :=
  pyFind s sub 0 != -1

/-- Python `s[start:stop]` with a non-negative start: a negative stop
counts from the end (the code reaches -1 when no closing quote follows
the opening marker). -/
def pySliceTo (s : List Char) (start : Nat) (stop : Int) : List Char :=
  (s.take (if stop < 0 then ((s.length : Int) + stop).toNat else stop.toNat)).drop start

/-- ASCII lower-casing: Python `.lower()` on the inputs at hand, and
sqlite's NOCASE collation exactly. -/
def asciiLower (s : String) : String :=
  ⟨s.data.map Char.toLower⟩

/-- `s.split(sep, 1)`: the part before the first occurrence and the part
after it (only used under a `sep in s` guard). -/
def pySplitOnce (s sep : String) : String × String :=
  let i := pyFind s sep 0
  if i < 0 then (s, "")
  else (⟨s.data.take i.toNat⟩, ⟨s.data.drop (i.toNat + sep.length)⟩)

/-! ## The sqlite store (schema of relationsBuilder.ensure_db, lines 67-91)

`words(id PK AUTOINCREMENT, lemma UNIQUE NOT NULL, pos NOT NULL)` and
`derived_forms(id PK AUTOINCREMENT, lemma_id, form, pos, relation_type)`.
Rows are kept in rowid (= insertion) order; AUTOINCREMENT hands out
`nextWordId` / `nextDerivedId` and increments it. -/

structure WordRow where
  id : Nat
  lemma_ : String
  pos : String
deriving DecidableEq

structure DerivedRow where
  id : Nat
  lemma_id : Nat
  form : String
  pos : String
  relation_type : String
deriving DecidableEq

structure DB where
  words : List WordRow
  derived_forms : List DerivedRow
  nextWordId : Nat
  nextDerivedId : Nat
deriving DecidableEq

/-- `INSERT OR IGNORE INTO words (lemma, pos) VALUES (?, 'n')` (line 171):
the UNIQUE constraint on `lemma` compares with sqlite's default BINARY
collation, i.e. exact string equality. -/
def insertWord (db : DB) (lem : String) : DB :=
  if db.words.any (fun w => w.lemma_ = lem) then db
  else { db with words := db.words ++ [⟨db.nextWordId, lem, "n"⟩],
                 nextWordId := db.nextWordId + 1 }

/-- `SELECT id FROM words WHERE lemma = ?` then `fetchone` (lines 172-173);
at most one row matches thanks to the UNIQUE constraint. -/
def lookupWordId (db : DB) (lem : String) : Option Nat :=
  (db.words.find? (fun w => w.lemma_ = lem)).map (fun w => w.id)

/-- `INSERT OR REPLACE INTO derived_forms (lemma_id, form, pos,
relation_type) VALUES (?, ?, ?, ?)` (lines 180-186): no id is supplied
and `derived_forms` has no other uniqueness constraint, so this is a
plain insert of a fresh row — it can never replace anything. -/
def insertDerived (db : DB) (lid : Nat) (form pos : String) : DB :=
  { db with derived_forms := db.derived_forms ++ [⟨db.nextDerivedId, lid, form, pos, "morphological"⟩],
            nextDerivedId := db.nextDerivedId + 1 }

/-! ## relationsBuilder.process_chunk and insert_terms (lines 135-187) -/

/-- The per-noun value `{'a': a, 'v': v, 'r': r}` built at line 162, in
that key order (Python dicts iterate in insertion order). -/
structure Forms where
  a : String
  v : String
  r : String
deriving DecidableEq

/-- `forms.items()` as `insert_terms` iterates it (line 178). -/
def formsList (f : Forms) : List (String × String) :=
  [("a", f.a), ("v", f.v), ("r", f.r)]

/-- Lines 156-161 for one candidate value, checked as
`v != 'N/A' and v not in paisa_set`: the string 'N/A' short-circuits
the membership test and is kept; any other string is kept verbatim
when it is in `paisa_set` and downgraded to 'N/A' otherwise; a
hashable non-string (number, boolean, null) is never a member of a set
of strings and is downgraded; an unhashable value (a JSON array or
object) makes `not in paisa_set` raise `TypeError` (`none`). -/
def validateVal (paisa : List String) (x : JValue) : Option String :=
  match x with
  | .jstr s => some (if s = "N/A" then "N/A" else if s ∈ paisa then s else "N/A")
  | .jarr _ => none
  | .jobj _ => none
  | _ => some "N/A"

/-- One loop iteration of lines 147-162 either produces the validated
forms or raises: `morpho.get` on a truthy non-dict `morpho` raises an
`AttributeError`, and the validation's `not in paisa_set` on an
unhashable candidate (a JSON array or object) raises a `TypeError`;
either way the exception is caught at line 163 outside the loop. -/
inductive ItemResult where
  | ok (f : Forms)
  | err
deriving DecidableEq

/-- `morpho.get(k, 'N/A')` once `morpho` is known to be a dict. -/
def morphoGet (mf : List (String × JValue)) (k : String) : JValue :=
  (getField mf k).getD (.jstr "N/A")

/-- Lines 148-162 for one `(noun, entry)` item: the candidates are
extracted (never raising), then validated in the code's order v, a, r
— a raise at any of them aborts the entry with the same observable
effect. -/
def processItem (paisa : List String) (entry : JValue) : ItemResult :=
  match entry with
  | .jobj fields =>
    if hasKey fields "morpho" then
      match getField fields "morpho" with
      | some m =>
        match (if m.truthy then m else JValue.jobj []) with
        | .jobj mf =>
          match validateVal paisa (morphoGet mf "v") with
          | none => .err
          | some v =>
            match validateVal paisa (morphoGet mf "a") with
            | none => .err
            | some a =>
              match validateVal paisa (morphoGet mf "r") with
              | none => .err
              | some r => .ok ⟨a, v, r⟩
        | _ => .err
      | none => .err
    else .ok ⟨"N/A", "N/A", "N/A"⟩
  | _ => .ok ⟨"N/A", "N/A", "N/A"⟩

/-- The `for noun, entry in results.items()` loop under the `try` of
lines 144-164: an exception mid-loop is caught at line 163, keeping the
`terms` accumulated so far (the keys of a parsed JSON object are
unique, so each iteration appends a fresh key). -/
def processItems (paisa : List String) : List (String × JValue) → List (String × Forms)
  | [] => []
  | (noun, entry) :: rest =>
    match processItem paisa entry with
    | .ok f => (noun, f) :: processItems paisa rest
    | .err => []

/-- `process_chunk` after the LLM call: `resp` is the result of
`json.loads` on the returned text — `none` when parsing raised (invalid
JSON, or an empty string from a failed call).  A parse result that is
not an object makes `results.items()` raise immediately, caught with
`terms` still empty. -/
def process_chunk (paisa : List String) (resp : Option JValue) : List (String × Forms) :=
  match resp with
  | some (.jobj items) => processItems paisa items
  | _ => []

/-- Lines 178-186 for one `(pos, form)` pair: `if form and form != 'N/A'`
guards the insert. -/
def slotInsert (lid : Nat) (d : DB) (pf : String × String) : DB :=
  if pf.2 ≠ "" ∧ pf.2 ≠ "N/A" then insertDerived d lid pf.2 pf.1 else d

/-- The body of `insert_terms` for one `(lemma, forms)` item
(lines 170-186). -/
def insertTermsStep (db : DB) (item : String × Forms) : DB :=
  let db1 := insertWord db item.1
  match lookupWordId db1 item.1 with
  | none => db1
  | some lid => (formsList item.2).foldl (slotInsert lid) db1

/-- `insert_terms(conn, terms)` (lines 168-187). -/
def insert_terms (db : DB) (terms : List (String × Forms)) : DB :=
  terms.foldl insertTermsStep db

/-- The number of derived rows the store holds for one (word id,
part-of-speech slot) pair. -/
def countSlot (db : DB) (lid : Nat) (slot : String) : Nat :=
  db.derived_forms.countP (fun r => r.lemma_id == lid && r.pos == slot)

/-- One iteration of the chunk loop in `main` (lines 201-205): process
the chunk and, `if terms:`, insert them. -/
def mainChunkStep (db : DB) (paisa : List String) (resp : Option JValue) : DB :=
  let terms := process_chunk paisa resp
  if terms.isEmpty then db else insert_terms db terms

/-! ## dbRelationCleanup.main (lines 75-205)

A Python exception escaping `main` is the explicit value `PyRes.exn`; a
normal return carries the run's observable outcome. -/

/-- A Python computation: a value, or a raised exception that aborts the
run. -/
inductive PyRes (α : Type) where
  | ok (a : α)
  | exn

instance : Monad PyRes where
  pure := .ok
  bind
    | .ok a, f => f a
    | .exn, _ => .exn

mutual

/-- Python `str(v)` (the idealisation writes container reprs without
escaping; only scalar ids occur in practice, rendered exactly). -/
def pyRepr : JValue → String
  | .jnull => "None"
  | .jbool b => if b then "True" else "False"
  | .jnum n => toString n
  | .jstr s => "'" ++ s ++ "'"
  | .jarr xs => "[" ++ pyReprList xs ++ "]"
  | .jobj fs => "\x7b" ++ pyReprFields fs ++ "\x7d"

/-- repr of a list's elements, comma-separated. -/
def pyReprList : List JValue → String
  | [] => ""
  | [x] => pyRepr x
  | x :: xs => pyRepr x ++ ", " ++ pyReprList xs

/-- repr of a dict's items, comma-separated. -/
def pyReprFields : List (String × JValue) → String
  | [] => ""
  | [(k, v)] => "'" ++ k ++ "': " ++ pyRepr v
  | (k, v) :: fs => "'" ++ k ++ "': " ++ pyRepr v ++ ", " ++ pyReprFields fs

end

/-- Python `str`: a string stays itself, anything else its repr. -/
def pyStr (v : JValue) : String :=
  match v with
  | .jstr s => s
  | _ => pyRepr v

/-- `r.get(k)` on a record: raises on a non-dict (`AttributeError`);
`None` both for an absent key and a JSON null value (the callers only
ever test `is None` or truthiness, which cannot tell the two apart). -/
def pyGet (v : JValue) (k : String) : PyRes (Option JValue) :=
  match v with
  | .jobj fs =>
    .ok (match getField fs k with
         | some .jnull => none
         | some x => some x
         | none => none)
  | _ => .exn

/-- `v[k]` with a string key: `KeyError` when absent, `TypeError` on
anything that is not a dict. -/
def jIndexS (v : JValue) (k : String) : PyRes JValue :=
  match v with
  | .jobj fs =>
    match getField fs k with
    | some x => .ok x
    | none => .exn
  | _ => .exn

/-- `v[0]`: `IndexError` on an empty list, `TypeError`/`KeyError`
otherwise.  (Indexing a string yields a one-character string on which
the next string-keyed access raises anyway, so collapsing it to an
immediate raise is observationally the same here.) -/
def jIndexN (v : JValue) (n : Nat) : PyRes JValue :=
  match v with
  | .jarr xs =>
    match xs.get? n with
    | some x => .ok x
    | none => .exn
  | _ => .exn

/-- `in_rec["body"]["messages"][0]["content"]` (line 117 etc.), which
must be a string for `.find` to work (line 117/123/126/131). -/
def getContent (in_rec : JValue) : PyRes String := do
  let b ← jIndexS in_rec "body"
  let ms ← jIndexS b "messages"
  let m0 ← jIndexN ms 0
  match ← jIndexS m0 "content" with
  | .jstr s => pure s
  | _ => .exn

/-- `out["response"]["body"]["choices"][0]["message"]["content"]`
(line 151); the content may be any value, `str()` is applied next. -/
def getAnswer (out : JValue) : PyRes JValue := do
  let r ← jIndexS out "response"
  let b ← jIndexS r "body"
  let cs ← jIndexS b "choices"
  let c0 ← jIndexN cs 0
  let m ← jIndexS c0 "message"
  jIndexS m "content"

/-- Assignment `m[k] = v` on a Python dict with unique keys: replace in
place when the key exists (keeping its position), append otherwise. -/
def dictInsert {α : Type} : List (String × α) → String → α → List (String × α)
  | [], k, v => [(k, v)]
  | (k', v') :: m, k, v =>
    if k' = k then (k', v) :: m else (k', v') :: dictInsert m k v

/-- `m.get(k)` on such a dict. -/
def dictLookup {α : Type} (m : List (String × α)) (k : String) : Option α :=
  (m.find? (fun p => p.1 = k)).map (fun p => p.2)

/-- `build_input_map` (lines 43-51): map `str(custom_id)` to the record,
skipping records without one; `.get` on a non-dict record raises. -/
def buildInputMapGo : List JValue → List (String × JValue) → PyRes (List (String × JValue))
  | [], m => .ok m
  | r :: rest, m => do
    match ← pyGet r "custom_id" with
    | none => buildInputMapGo rest m
    | some cid => buildInputMapGo rest (dictInsert m (pyStr cid) r)

def build_input_map (records : List JValue) : PyRes (List (String × JValue)) :=
  buildInputMapGo records []

/-- The fixed template markers of lines 117 and 126. -/
def parolaMarker : String := "La parola '"

def lemmaMarker : String := "con il lemma '"

/-- Lines 136-141: when either term came out empty, fall back to a
`question`/`text` field split on `->`.  `q` is the first truthy of the
two gets, else the empty string; `"->" in q` raises `TypeError` on a
number or bool, and a hit inside a list or dict reaches `q.split`,
which raises `AttributeError`. -/
def extractFallback (in_rec : JValue) (derived root : String) : PyRes (String × String) := do
  if derived = "" ∨ root = "" then
    let q1 ← pyGet in_rec "question"
    let q2 ← pyGet in_rec "text"
    let qv : JValue :=
      match q1 with
      | some v => if v.truthy then v else
          (match q2 with
           | some w => if w.truthy then w else .jstr ""
           | none => .jstr "")
      | none =>
          (match q2 with
           | some w => if w.truthy then w else .jstr ""
           | none => .jstr "")
    match qv with
    | .jstr s =>
      if pyContains s "->" then
        let parts := pySplitOnce s "->"
        pure (pyStrip parts.1, pyStrip parts.2)
      else pure (derived, root)
    | .jarr xs => if xs.any (fun x => x.isStrEq "->") then .exn else pure (derived, root)
    | .jobj fs => if fs.any (fun p => p.1 = "->") then .exn else pure (derived, root)
    | _ => .exn
  else pure (derived, root)

/-- One iteration of the `for out in outputs` loop (lines 107-160):
`ok none` means `continue` (skipped with a message), `ok (some (d, r))`
a confirmed deletion pair, `exn` an uncaught exception. -/
def processOutput (input_map : List (String × JValue)) (autoConfirm : Bool)
    (confirmFn : String → String → Bool) (out : JValue) :
    PyRes (Option (String × String)) := do
  match ← pyGet out "custom_id" with
  | none => pure none
  | some cid =>
    match dictLookup input_map (pyStr cid) with
    | none => pure none
    | some in_rec =>
      let content ← getContent in_rec
      let i1 := pyFind content parolaMarker 0
      if i1 < 0 then pure none
      else
        let s1 := i1.toNat + parolaMarker.length
        let derived0 : String := ⟨pySliceTo content.data s1 (pyFind content "'" s1)⟩
        let i2 := pyFind content lemmaMarker 0
        if i2 < 0 then pure none
        else
          let s2 := i2.toNat + lemmaMarker.length
          let root0 : String := ⟨pySliceTo content.data s2 (pyFind content "'" s2)⟩
          let (derived1, root1) ← extractFallback in_rec derived0 root0
          if derived1 = "" ∨ root1 = "" then pure none
          else
            let derived := pyStrip derived1
            let root := pyStrip root1
            let answer ← getAnswer out
            if pyContains (asciiLower (pyStrip (pyStr answer))) "no" then
              if autoConfirm || confirmFn derived root then pure (some (derived, root))
              else pure none
            else pure none

/-- The whole collection loop filling `to_delete` (lines 101-160). -/
def collectToDelete (input_map : List (String × JValue)) (autoConfirm : Bool)
    (confirmFn : String → String → Bool) :
    List JValue → List (String × String) → PyRes (List (String × String))
  | [], m => .ok m
  | out :: rest, m =>
    match processOutput input_map autoConfirm confirmFn out with
    | .exn => .exn
    | .ok none => collectToDelete input_map autoConfirm confirmFn rest m
    | .ok (some (d, r)) => collectToDelete input_map autoConfirm confirmFn rest (dictInsert m d r)

/-- The confirmed `(derived, root)` pairs in processing order, before
the dict collapses duplicate derived terms. -/
def confirmedPairs (input_map : List (String × JValue)) (autoConfirm : Bool)
    (confirmFn : String → String → Bool) : List JValue → PyRes (List (String × String))
  | [] => .ok []
  | out :: rest =>
    match processOutput input_map autoConfirm confirmFn out with
    | .exn => .exn
    | .ok none => confirmedPairs input_map autoConfirm confirmFn rest
    | .ok (some p) =>
      match confirmedPairs input_map autoConfirm confirmFn rest with
      | .exn => .exn
      | .ok ps => .ok (p :: ps)

/-- The root the `to_delete` dict finally holds for a derived term: the
last confirmed pair naming that derived term wins. -/
def lastRootFor (ps : List (String × String)) (d : String) : Option String :=
  ps.foldl (fun acc p => if p.1 = d then some p.2 else acc) none

/-- `SELECT id FROM words WHERE lemma = ? COLLATE NOCASE` + `fetchone`
(line 175): NOCASE folds ASCII letters only; `fetchone` takes the first
row in rowid order. -/
def wordLookupNoCase (db : DB) (root : String) : Option WordRow :=
  db.words.find? (fun w => asciiLower w.lemma_ = asciiLower root)

/-- `SELECT id, form FROM derived_forms WHERE lemma_id = ? COLLATE NOCASE`
(line 181): the collation is meaningless on the integer join and the
comparison is plain id equality. -/
def derivedByLemmaId (db : DB) (lid : Nat) : List DerivedRow :=
  db.derived_forms.filter (fun r => r.lemma_id == lid)

/-- Lines 173-189 for one `(derived, root)` pair: its contribution to
the `deletions` list, one triple per matching derived row (empty when
the root lemma is absent, reported informationally). -/
def pairDeletions (db : DB) (derived root : String) : List (String × String × Nat) :=
  match wordLookupNoCase db root with
  | none => []
  | some w => (derivedByLemmaId db w.id).map (fun r => (derived, root, r.id))

/-- The loop over `to_delete.items()` building `deletions`. -/
def buildDeletions (db : DB) (toDel : List (String × String)) : List (String × String × Nat) :=
  toDel.foldl (fun acc p => acc ++ pairDeletions db p.1 p.2) []

/-- One line of `deletions.sql` (line 199, without the trailing
newline). -/
def renderDelete (t : String × String × Nat) : String :=
  "DELETE FROM derived_forms WHERE id = " ++ toString t.2.2 ++
    ";  -- form='" ++ t.1 ++ "' expected_root='" ++ t.2.1 ++ "'"

/-- What a completed run of `main` leaves behind: the store (read-only
throughout — every statement executed against it is a SELECT), the
confirmed `to_delete` dict, the `deletions` list, and the lines written
to `deletions.sql` (`none` when the early returns of lines 162-164 or
191-193 fire and the file is never opened). -/
structure RunResult where
  db : DB
  toDelete : List (String × String)
  deletions : List (String × String × Nat)
  sqlFile : Option (List String)
deriving DecidableEq

/-- `main` (lines 75-205) after argument parsing and the existence
checks on the two files and the store. -/
def reconcile (inputs outputs : List JValue) (db : DB) (autoConfirm : Bool)
    (confirmFn : String → String → Bool) : PyRes RunResult :=
  match build_input_map inputs with
  | .exn => .exn
  | .ok input_map =>
    match collectToDelete input_map autoConfirm confirmFn outputs [] with
    | .exn => .exn
    | .ok toDel =>
      if toDel.isEmpty then .ok ⟨db, toDel, [], none⟩
      else
        if (buildDeletions db toDel).isEmpty then
          .ok ⟨db, toDel, buildDeletions db toDel, none⟩
        else
          .ok ⟨db, toDel, buildDeletions db toDel,
               some ((buildDeletions db toDel).map renderDelete)⟩

/-! ## Concrete inputs used by counterexamples and witnesses -/

/-- A parsed model response whose first entry is well-formed and whose
second entry has a truthy non-dict `morpho` value — `morpho.get` raises
mid-loop there. -/
def respMalformed : JValue :=
  .jobj [("casa", .jobj [("morpho", .jobj [("a", .jstr "casalingo"),
            ("v", .jstr "N/A"), ("r", .jstr "N/A")])]),
         ("gatto", .jobj [("morpho", .jstr "xx")])]

/-- A parsed model response offering the empty string as the adjective
candidate. -/
def respEmptyForm : JValue :=
  .jobj [("casa", .jobj [("morpho", .jobj [("a", .jstr ""),
            ("v", .jstr "N/A"), ("r", .jstr "N/A")])])]

/-- The batch-file records and store of the reconciliation witness:
one input/output pair, judged "No", whose root lemma and one derived
row are in the store. -/
def contentW : String := "La parola 'casalingo' è correlata con il lemma 'casa'?"

def inRecW : JValue :=
  .jobj [("custom_id", .jstr "1"),
         ("body", .jobj [("messages", .jarr [.jobj [("content", .jstr contentW)]])])]

def outRecW : JValue :=
  .jobj [("custom_id", .jstr "1"),
         ("response", .jobj [("body", .jobj [("choices",
            .jarr [.jobj [("message", .jobj [("content",
               .jstr "No, non esiste alcuna relazione")])]])])])]

def dbW : DB := ⟨[⟨1, "casa", "n"⟩], [⟨1, 1, "casalingo", "a", "morphological"⟩], 2, 2⟩

def resW : RunResult :=
  ⟨dbW, [("casalingo", "casa")], [("casalingo", "casa", 1)],
   some [renderDelete ("casalingo", "casa", 1)]⟩

/-- Records for the last-root-wins witness: two confirmed pairs share
the derived term "rallegrare" with different roots. -/
def inRecX1 : JValue :=
  .jobj [("custom_id", .jstr "1"),
         ("body", .jobj [("messages", .jarr [.jobj [("content",
            .jstr "La parola 'rallegrare' è correlata con il lemma 'allegria'?")]])])]

def inRecX2 : JValue :=
  .jobj [("custom_id", .jstr "2"),
         ("body", .jobj [("messages", .jarr [.jobj [("content",
            .jstr "La parola 'rallegrare' è correlata con il lemma 'gioia'?")]])])]

def outRecX1 : JValue :=
  .jobj [("custom_id", .jstr "1"),
         ("response", .jobj [("body", .jobj [("choices",
            .jarr [.jobj [("message", .jobj [("content", .jstr "No")])]])])])]

def outRecX2 : JValue :=
  .jobj [("custom_id", .jstr "2"),
         ("response", .jobj [("body", .jobj [("choices",
            .jarr [.jobj [("message", .jobj [("content", .jstr "No")])]])])])]

def dbX : DB := ⟨[⟨1, "gioia", "n"⟩], [⟨1, 1, "gioioso", "a", "morphological"⟩], 2, 2⟩

def resX : RunResult :=
  ⟨dbX, [("rallegrare", "gioia")], [("rallegrare", "gioia", 1)],
   some [renderDelete ("rallegrare", "gioia", 1)]⟩

/-- `build_input_map [inRecX1, inRecX2]` evaluates to this dict. -/
def imapX : List (String × JValue) := [("1", inRecX1), ("2", inRecX2)]

/-! ## Lemmas about the invocation client -/

theorem invokeLLMAux_transient_step (oracle : Nat → CallResult) (fuel retry calls : Nat)
    (sleeps : List Nat) (h : (oracle calls).isTransient = true) :
    invokeLLMAux oracle (fuel + 1) retry calls sleeps =
      invokeLLMAux oracle fuel (retry + 1) (calls + 1) (sleeps ++ [retry + 1]) := by
  cases hc : oracle calls with
  | ok content =>
    cases content with
    | some c =>
      have hce : c = "" := by
        simpa [CallResult.isTransient, hc] using h
      simp [invokeLLMAux, hc, hce]
    | none => simp [invokeLLMAux, hc]
  | sdkError => simp [invokeLLMAux, hc]
  | otherError => simp [CallResult.isTransient, hc] at h

theorem invokeLLMAux_success_step (oracle : Nat → CallResult) (fuel retry calls : Nat)
    (sleeps : List Nat) (c : String) (h : oracle calls = .ok (some c)) (hc : c ≠ "") :
    invokeLLMAux oracle (fuel + 1) retry calls sleeps = ⟨pyStrip c, true, calls + 1, sleeps⟩ := by
  simp [invokeLLMAux, h, hc]

theorem invokeLLMAux_abort_step (oracle : Nat → CallResult) (fuel retry calls : Nat)
    (sleeps : List Nat) (h : oracle calls = .otherError) :
    invokeLLMAux oracle (fuel + 1) retry calls sleeps = ⟨"", false, calls + 1, sleeps⟩ := by
  simp [invokeLLMAux, h]

theorem invokeLLMAux_failure_response (oracle : Nat → CallResult) :
    ∀ (fuel retry calls : Nat) (sleeps : List Nat),
      (invokeLLMAux oracle fuel retry calls sleeps).success = false →
      (invokeLLMAux oracle fuel retry calls sleeps).response = "" := by
  intro fuel
  induction fuel with
  | zero => intro _ _ _ _; rfl
  | succ n ih =>
    intro retry calls sleeps h
    cases hc : oracle calls with
    | ok content =>
      cases content with
      | some c =>
        by_cases hce : c = ""
        · rw [invokeLLMAux_transient_step oracle n retry calls sleeps
            (by simp [CallResult.isTransient, hc, hce])] at h ⊢
          exact ih _ _ _ h
        · rw [invokeLLMAux_success_step oracle n retry calls sleeps c hc hce] at h
          cases h
      | none =>
        rw [invokeLLMAux_transient_step oracle n retry calls sleeps
          (by simp [CallResult.isTransient, hc])] at h ⊢
        exact ih _ _ _ h
    | sdkError =>
      rw [invokeLLMAux_transient_step oracle n retry calls sleeps
        (by simp [CallResult.isTransient, hc])] at h ⊢
      exact ih _ _ _ h
    | otherError =>
      rw [invokeLLMAux_abort_step oracle n retry calls sleeps hc]

theorem invokeLLMAux_all_transient (oracle : Nat → CallResult)
    (hT : ∀ i, (oracle i).isTransient = true) :
    ∀ (fuel retry calls : Nat) (sleeps : List Nat),
      (invokeLLMAux oracle fuel retry calls sleeps).response = "" ∧
      (invokeLLMAux oracle fuel retry calls sleeps).success = false ∧
      (invokeLLMAux oracle fuel retry calls sleeps).calls = calls + fuel := by
  intro fuel
  induction fuel with
  | zero => intro _ _ _; exact ⟨rfl, rfl, rfl⟩
  | succ n ih =>
    intro retry calls sleeps
    rw [invokeLLMAux_transient_step oracle n retry calls sleeps (hT calls)]
    refine ⟨(ih _ _ _).1, (ih _ _ _).2.1, ?_⟩
    rw [(ih _ _ _).2.2]
    omega

theorem invokeLLMAux_succeeds_after (oracle : Nat → CallResult) :
    ∀ (k fuel retry calls : Nat) (sleeps : List Nat) (c : String),
      (∀ i, i < k → (oracle (calls + i)).isTransient = true) →
      oracle (calls + k) = .ok (some c) → c ≠ "" → k < fuel →
      (invokeLLMAux oracle fuel retry calls sleeps).response = pyStrip c ∧
      (invokeLLMAux oracle fuel retry calls sleeps).success = true ∧
      (invokeLLMAux oracle fuel retry calls sleeps).calls = calls + k + 1 := by
  intro k
  induction k with
  | zero =>
    intro fuel retry calls sleeps c _ hk hc hfuel
    obtain ⟨m, rfl⟩ : ∃ m, fuel = m + 1 := ⟨fuel - 1, by omega⟩
    rw [invokeLLMAux_success_step oracle m retry calls sleeps c (by simpa using hk) hc]
    exact ⟨rfl, rfl, rfl⟩
  | succ n ih =>
    intro fuel retry calls sleeps c hT hk hc hfuel
    obtain ⟨m, rfl⟩ : ∃ m, fuel = m + 1 := ⟨fuel - 1, by omega⟩
    rw [invokeLLMAux_transient_step oracle m retry calls sleeps
      (by simpa using hT 0 (Nat.succ_pos n))]
    have ih' := ih m (retry + 1) (calls + 1) (sleeps ++ [retry + 1]) c
      (fun i hi => by
        have := hT (i + 1) (by omega)
        simpa [Nat.add_assoc, Nat.add_comm 1 i] using this)
      (by
        have : calls + 1 + n = calls + (n + 1) := by omega
        rw [this]; exact hk)
      hc (by omega)
    exact ⟨ih'.1, ih'.2.1, by rw [ih'.2.2]; omega⟩

/-- C2: for every prompt/format/temperature (folded into the oracle) and
`attempts ≥ 1`, `invokeLLM` never propagates an exception: every failure
path terminates in a returned `(text, succeeded)` tuple with an empty
text, and exhausting all attempts (every call failing transiently)
returns `("", false)` after performing `attempts` calls.  (The model is
a total function into `LLMResult`: non-propagation of exceptions holds
by construction; the recognized-exception paths are the `sdkError` and
empty-content branches, and the unexpected-error path ends in the
`otherError` return.) -/
theorem invokeLLM_never_raises_and_exhaustion_returns_failure
    (oracle : Nat → CallResult) (attempts : Nat) (hA : 1 ≤ attempts) :
    ((∀ i, (oracle i).isTransient = true) →
      (invokeLLM oracle attempts).response = "" ∧
      (invokeLLM oracle attempts).success = false ∧
      (invokeLLM oracle attempts).calls = attempts) ∧
    ((invokeLLM oracle attempts).success = false →
      (invokeLLM oracle attempts).response = "") := by
  constructor
  · intro hT
    have h := invokeLLMAux_all_transient oracle hT attempts 0 0 []
    exact ⟨h.1, h.2.1, by rw [invokeLLM, h.2.2]; omega⟩
  · exact invokeLLMAux_failure_response oracle attempts 0 0 []

theorem invokeLLM_never_raises_witness :
    (invokeLLM (fun _ => .sdkError) 3).response = "" ∧
    (invokeLLM (fun _ => .sdkError) 3).success = false ∧
    (invokeLLM (fun _ => .sdkError) 3).calls = 3 :=
  (invokeLLM_never_raises_and_exhaustion_returns_failure (fun _ => .sdkError) 3
    (by norm_num)).1 (fun _ => rfl)

/-- C3: exact call counts.  (1) A stub failing transiently at the first
`k < attempts` calls and then returning non-empty text makes `invokeLLM`
return `(text, true)` after exactly `k + 1` calls (the code returns the
stripped text, so the stub text is taken strip-invariant, as the claim's
`(text, true)` presumes).  (2) A stub that always fails transiently
yields `("", false)` after exactly `attempts` calls.  (3) A stub raising
an unrecognized error on the first call yields `("", false)` after
exactly 1 call. -/
theorem invokeLLM_exact_call_counts (oracle : Nat → CallResult) (attempts k : Nat)
    (c : String) :
    (k < attempts → (∀ i, i < k → (oracle i).isTransient = true) →
      oracle k = .ok (some c) → pyStrip c = c → c ≠ "" →
      (invokeLLM oracle attempts).response = c ∧
      (invokeLLM oracle attempts).success = true ∧
      (invokeLLM oracle attempts).calls = k + 1) ∧
    ((∀ i, (oracle i).isTransient = true) → 1 ≤ attempts →
      (invokeLLM oracle attempts).response = "" ∧
      (invokeLLM oracle attempts).success = false ∧
      (invokeLLM oracle attempts).calls = attempts) ∧
    (oracle 0 = .otherError → 1 ≤ attempts →
      (invokeLLM oracle attempts).response = "" ∧
      (invokeLLM oracle attempts).success = false ∧
      (invokeLLM oracle attempts).calls = 1) := by
  refine ⟨?_, ?_, ?_⟩
  · intro hk hT hok htrim hne
    have h := invokeLLMAux_succeeds_after oracle k attempts 0 0 [] c
      (fun i hi => by simpa using hT i hi) (by simpa using hok) hne hk
    exact ⟨by rw [invokeLLM, h.1, htrim], h.2.1, by rw [invokeLLM, h.2.2]; omega⟩
  · intro hT _
    have h := invokeLLMAux_all_transient oracle hT attempts 0 0 []
    exact ⟨h.1, h.2.1, by rw [invokeLLM, h.2.2]; omega⟩
  · intro h0 hA
    obtain ⟨m, rfl⟩ : ∃ m, attempts = m + 1 := ⟨attempts - 1, by omega⟩
    rw [invokeLLM, invokeLLMAux_abort_step oracle m 0 0 [] h0]
    exact ⟨rfl, rfl, rfl⟩

theorem invokeLLM_exact_call_counts_witness :
    ((invokeLLM (fun i => if i < 2 then .sdkError else .ok (some "ciao")) 5).response = "ciao" ∧
     (invokeLLM (fun i => if i < 2 then .sdkError else .ok (some "ciao")) 5).success = true ∧
     (invokeLLM (fun i => if i < 2 then .sdkError else .ok (some "ciao")) 5).calls = 3) ∧
    ((invokeLLM (fun _ => .ok none) 4).calls = 4 ∧
     (invokeLLM (fun _ => .ok none) 4).success = false) ∧
    ((invokeLLM (fun _ => .otherError) 5).calls = 1 ∧
     (invokeLLM (fun _ => .otherError) 5).success = false) := by
  refine ⟨?_, ?_, ?_⟩
  · exact (invokeLLM_exact_call_counts (fun i => if i < 2 then .sdkError else .ok (some "ciao"))
      5 2 "ciao").1 (by norm_num) (fun i hi => by interval_cases i <;> rfl) rfl (by decide)
      (by decide)
  · have h := (invokeLLM_exact_call_counts (fun _ => .ok none) 4 0 "").2.1
      (fun _ => rfl) (by norm_num)
    exact ⟨h.2.2, h.2.1⟩
  · have h := (invokeLLM_exact_call_counts (fun _ => .otherError) 5 0 "").2.2 rfl
      (by norm_num)
    exact ⟨h.2.2, h.2.1⟩

/-- C8, counterexample: the code does NOT distinguish absent content
from a present-but-empty string — `if content:` (line 74) is false for
both, so an extracted answer that is the empty string takes the
transient-failure branch of lines 78-81: the retry counter is
incremented and a backoff sleep happens before retrying.  With a stub
always yielding a present-but-empty content and `attempts = 2`, the
loop performs 2 calls with backoff sleeps `0.15·1` and `0.15·2` instead
of stopping at the first call. -/
theorem invokeLLM_empty_string_treated_transient_cex :
    invokeLLM (fun _ => .ok (some "")) 2 = ⟨"", false, 2, [1, 2]⟩ ∧
    (invokeLLM (fun _ => .ok (some "")) 2).calls ≠ 1 ∧
    (invokeLLM (fun _ => .ok (some "")) 2).sleeps ≠ [] := by
  refine ⟨rfl, by decide, by decide⟩

/-- C8, amended: `invokeLLM` treats absent content, a present-but-empty
extracted answer, and a recognized transient service error all alike as
the transient-failure case — incrementing the retry counter and backing
off `0.15 × retryCount` seconds before retrying — while any non-empty
extracted answer is returned immediately (stripped) with
`succeeded = true`. -/
theorem invokeLLM_empty_answer_is_transient (oracle : Nat → CallResult)
    (fuel retry calls : Nat) (sleeps : List Nat) :
    ((oracle calls = .ok none ∨ oracle calls = .ok (some "") ∨ oracle calls = .sdkError) →
      invokeLLMAux oracle (fuel + 1) retry calls sleeps =
        invokeLLMAux oracle fuel (retry + 1) (calls + 1) (sleeps ++ [retry + 1])) ∧
    (∀ c, oracle calls = .ok (some c) → c ≠ "" →
      invokeLLMAux oracle (fuel + 1) retry calls sleeps = ⟨pyStrip c, true, calls + 1, sleeps⟩) := by
  constructor
  · intro h
    refine invokeLLMAux_transient_step oracle fuel retry calls sleeps ?_
    rcases h with h | h | h <;> simp [CallResult.isTransient, h]
  · intro c h hc
    exact invokeLLMAux_success_step oracle fuel retry calls sleeps c h hc

theorem invokeLLM_empty_answer_is_transient_witness :
    (invokeLLMAux (fun _ => .ok (some "")) 3 0 0 [] =
      invokeLLMAux (fun _ => .ok (some "")) 2 1 1 [1]) ∧
    (invokeLLMAux (fun _ => .ok (some "ciao")) 3 0 0 [] = ⟨"ciao", true, 1, []⟩) := by
  constructor
  · have h := (invokeLLM_empty_answer_is_transient (fun _ => .ok (some "")) 2 0 0 []).1
      (Or.inr (Or.inl rfl))
    exact h.trans (by decide)
  · have h := (invokeLLM_empty_answer_is_transient (fun _ => .ok (some "ciao")) 2 0 0 []).2
      "ciao" rfl (by decide)
    exact h.trans (by decide)

/-! ## Lemmas about the store operations of the generation pipeline -/

theorem insertWord_derived_forms (db : DB) (lem : String) :
    (insertWord db lem).derived_forms = db.derived_forms := by
  unfold insertWord
  split <;> rfl

theorem insertDerived_derived_forms (db : DB) (lid : Nat) (form pos : String) :
    (insertDerived db lid form pos).derived_forms =
      db.derived_forms ++ [⟨db.nextDerivedId, lid, form, pos, "morphological"⟩] := rfl

theorem slotInsert_extends (lid : Nat) (d : DB) (pf : String × String) :
    d.derived_forms <+: (slotInsert lid d pf).derived_forms := by
  unfold slotInsert
  split
  · rw [insertDerived_derived_forms]; exact List.prefix_append _ _
  · exact List.prefix_refl _

theorem foldlSlot_extends (lid : Nat) :
    ∀ (l : List (String × String)) (d : DB),
      d.derived_forms <+: (l.foldl (slotInsert lid) d).derived_forms := by
  intro l
  induction l with
  | nil => intro d; exact List.prefix_refl _
  | cons pf rest ih =>
    intro d
    exact (slotInsert_extends lid d pf).trans (ih (slotInsert lid d pf))

theorem insertTermsStep_extends (db : DB) (item : String × Forms) :
    db.derived_forms <+: (insertTermsStep db item).derived_forms := by
  simp only [insertTermsStep]
  cases h : lookupWordId (insertWord db item.1) item.1 with
  | none =>
    simp only [h, insertWord_derived_forms]
    exact List.prefix_refl _
  | some lid =>
    simp only [h]
    have hp := foldlSlot_extends lid (formsList item.2) (insertWord db item.1)
    rwa [insertWord_derived_forms] at hp

theorem insert_terms_extends :
    ∀ (terms : List (String × Forms)) (db : DB),
      db.derived_forms <+: (insert_terms db terms).derived_forms := by
  intro terms
  induction terms with
  | nil => intro db; exact List.prefix_refl _
  | cons item rest ih =>
    intro db
    exact (insertTermsStep_extends db item).trans (ih (insertTermsStep db item))

theorem foldlSlot_countSlot_mono (lid : Nat) (slot : String)
    (l : List (String × String)) (d : DB) :
    countSlot d lid slot ≤ countSlot (l.foldl (slotInsert lid) d) lid slot :=
  (foldlSlot_extends lid l d).sublist.countP_le _

theorem countSlot_insertDerived_same (d : DB) (lid : Nat) (slot s : String) :
    countSlot (insertDerived d lid s slot) lid slot = countSlot d lid slot + 1 := by
  unfold countSlot
  rw [insertDerived_derived_forms, List.countP_append]
  simp

theorem insertWord_of_found (db : DB) (w : String) (wr : WordRow)
    (hw : db.words.find? (fun x => x.lemma_ = w) = some wr) :
    insertWord db w = db := by
  unfold insertWord
  rw [if_pos]
  have hpred := List.find?_some hw
  exact List.any_eq_true.mpr ⟨wr, List.mem_of_find?_eq_some hw, hpred⟩

theorem insert_terms_single (db : DB) (w : String) (f : Forms) (wr : WordRow)
    (hw : db.words.find? (fun x => x.lemma_ = w) = some wr) :
    insert_terms db [(w, f)] = (formsList f).foldl (slotInsert wr.id) db := by
  unfold insert_terms insertTermsStep
  simp only [List.foldl]
  rw [insertWord_of_found db w wr hw]
  simp only [lookupWordId, hw, Option.map_some']

theorem countSlot_foldl_fires (lid : Nat) (slot s : String)
    (h0 : s ≠ "") (h1 : s ≠ "N/A") (l1 l2 : List (String × String)) (d : DB) :
    countSlot d lid slot < countSlot ((l1 ++ (slot, s) :: l2).foldl (slotInsert lid) d) lid slot := by
  rw [List.foldl_append]
  have hfire : slotInsert lid (l1.foldl (slotInsert lid) d) (slot, s) =
      insertDerived (l1.foldl (slotInsert lid) d) lid s slot := by
    unfold slotInsert
    rw [if_pos ⟨h0, h1⟩]
  calc countSlot d lid slot
      ≤ countSlot (l1.foldl (slotInsert lid) d) lid slot := foldlSlot_countSlot_mono lid slot l1 d
    _ < countSlot (slotInsert lid (l1.foldl (slotInsert lid) d) (slot, s)) lid slot := by
        rw [hfire, countSlot_insertDerived_same]; omega
    _ ≤ _ := by
        simpa using foldlSlot_countSlot_mono lid slot l2 (slotInsert lid (l1.foldl (slotInsert lid) d) (slot, s))

/-- C5: the derived-form persistence is keyed only by the auto-generated
surrogate id, never by (word, slot): when the store already holds a
derived row for a word's slot and `insert_terms` runs again over the
same word with a differing non-sentinel form for that slot, a new
`derived_forms` row is added, the existing row stays intact (the old
rows are a prefix of the new), and the row count for that (word, slot)
strictly increases. -/
theorem insert_terms_same_slot_adds_row (db : DB) (w : String) (wr : WordRow)
    (f : Forms) (slot form0 : String) (row : DerivedRow)
    (hw : db.words.find? (fun x => x.lemma_ = w) = some wr)
    (hrow : row ∈ db.derived_forms) (hl : row.lemma_id = wr.id) (hp : row.pos = slot)
    (hslot : (slot, form0) ∈ formsList f) (h0 : form0 ≠ "") (h1 : form0 ≠ "N/A")
    (h2 : form0 ≠ row.form) :
    countSlot (insert_terms db [(w, f)]) wr.id slot > countSlot db wr.id slot ∧
    row ∈ (insert_terms db [(w, f)]).derived_forms ∧
    db.derived_forms <+: (insert_terms db [(w, f)]).derived_forms := by
  have hpre : db.derived_forms <+: (insert_terms db [(w, f)]).derived_forms :=
    insert_terms_extends [(w, f)] db
  obtain ⟨l1, l2, hdecomp⟩ := List.append_of_mem hslot
  refine ⟨?_, hpre.subset hrow, hpre⟩
  rw [insert_terms_single db w f wr hw, hdecomp]
  exact countSlot_foldl_fires wr.id slot form0 h0 h1 l1 l2 db

theorem insert_terms_same_slot_adds_row_witness :
    countSlot (insert_terms ⟨[⟨1, "casa", "n"⟩], [⟨1, 1, "casalingo", "a", "morphological"⟩], 2, 2⟩
        [("casa", ⟨"casereccio", "N/A", "N/A"⟩)]) 1 "a" >
      countSlot ⟨[⟨1, "casa", "n"⟩], [⟨1, 1, "casalingo", "a", "morphological"⟩], 2, 2⟩ 1 "a" ∧
    (⟨1, 1, "casalingo", "a", "morphological"⟩ : DerivedRow) ∈
      (insert_terms ⟨[⟨1, "casa", "n"⟩], [⟨1, 1, "casalingo", "a", "morphological"⟩], 2, 2⟩
        [("casa", ⟨"casereccio", "N/A", "N/A"⟩)]).derived_forms ∧
    ([⟨1, 1, "casalingo", "a", "morphological"⟩] : List DerivedRow) <+:
      (insert_terms ⟨[⟨1, "casa", "n"⟩], [⟨1, 1, "casalingo", "a", "morphological"⟩], 2, 2⟩
        [("casa", ⟨"casereccio", "N/A", "N/A"⟩)]).derived_forms :=
  insert_terms_same_slot_adds_row
    ⟨[⟨1, "casa", "n"⟩], [⟨1, 1, "casalingo", "a", "morphological"⟩], 2, 2⟩
    "casa" ⟨1, "casa", "n"⟩ ⟨"casereccio", "N/A", "N/A"⟩ "a" "casereccio"
    ⟨1, 1, "casalingo", "a", "morphological"⟩
    (by decide) (by decide) (by decide) (by decide) (by decide) (by decide)
    (by decide) (by decide)

/-! ## C4: malformed responses and (partial) insertion -/

/-- C4, counterexample: the claim says a malformed response (expected
keys/shapes missing mid-parse) leads to the chunk being skipped with no
partial insertion.  But the `except` of line 163 catches the error
*outside* the per-entry loop, and `main` inserts whatever `terms` had
accumulated: with a response whose first entry is well-formed and whose
second entry makes `morpho.get` raise (its `morpho` value is a truthy
non-dict), the first entry's derived form IS inserted into the store. -/
theorem process_chunk_partial_insertion_cex :
    processItem ["casalingo"] (.jobj [("morpho", .jstr "xx")]) = .err ∧
    (mainChunkStep ⟨[], [], 1, 1⟩ ["casalingo"] (some respMalformed)).derived_forms =
      [⟨1, 1, "casalingo", "a", "morphological"⟩] :=
  ⟨rfl, rfl⟩

/-- C4, amended: when the returned text is not valid JSON (including the
empty text of a failed call) or its top level is not an object, the
chunk is skipped with a diagnostic and nothing from it reaches the
store; but an error arising mid-iteration (an entry whose `morpho`
value is a truthy non-object, or whose candidate slot value is an
unhashable array/object, making the vocabulary membership test raise)
stops the iteration and keeps the entries already processed, which are
then inserted — partial insertion of a prefix of the chunk is
possible.  Processing continues with the next chunk either way. -/
theorem process_chunk_malformed_skips (paisa : List String) (db : DB)
    (pre post : List (String × JValue)) (noun : String) (entry : JValue)
    (hpre : ∀ p ∈ pre, processItem paisa p.2 ≠ .err)
    (he : processItem paisa entry = .err) :
    process_chunk paisa none = [] ∧
    mainChunkStep db paisa none = db ∧
    (∀ v : JValue, (∀ fs, v ≠ .jobj fs) → mainChunkStep db paisa (some v) = db) ∧
    processItems paisa (pre ++ (noun, entry) :: post) = processItems paisa pre := by
  refine ⟨rfl, rfl, ?_, ?_⟩
  · intro v hv
    cases v with
    | jobj fs => exact absurd rfl (hv fs)
    | jnull => rfl
    | jbool b => rfl
    | jnum n => rfl
    | jstr s => rfl
    | jarr xs => rfl
  · induction pre with
    | nil =>
      simp only [List.nil_append, processItems, he]
    | cons p0 rest ih =>
      obtain ⟨n0, e0⟩ := p0
      have h0 : processItem paisa e0 ≠ .err := hpre (n0, e0) (List.mem_cons_self _ _)
      cases hcase : processItem paisa e0 with
      | err => exact absurd hcase h0
      | ok f =>
        simp only [List.cons_append, processItems, hcase]
        exact congrArg _ (ih (fun p hp => hpre p (List.mem_cons_of_mem _ hp)))

theorem process_chunk_malformed_skips_witness :
    process_chunk ["casalingo"] none = [] ∧
    mainChunkStep ⟨[], [], 1, 1⟩ ["casalingo"] none = ⟨[], [], 1, 1⟩ ∧
    (∀ v : JValue, (∀ fs, v ≠ .jobj fs) →
      mainChunkStep ⟨[], [], 1, 1⟩ ["casalingo"] (some v) = ⟨[], [], 1, 1⟩) ∧
    processItems ["casalingo"]
        ([("casa", .jobj [("morpho", .jobj [("a", .jstr "casalingo"),
            ("v", .jstr "N/A"), ("r", .jstr "N/A")])])] ++
          ("gatto", .jobj [("morpho", .jstr "xx")]) :: []) =
      processItems ["casalingo"]
        [("casa", .jobj [("morpho", .jobj [("a", .jstr "casalingo"),
            ("v", .jstr "N/A"), ("r", .jstr "N/A")])])] :=
  process_chunk_malformed_skips ["casalingo"] ⟨[], [], 1, 1⟩
    [("casa", .jobj [("morpho", .jobj [("a", .jstr "casalingo"),
        ("v", .jstr "N/A"), ("r", .jstr "N/A")])])] []
    "gatto" (.jobj [("morpho", .jstr "xx")])
    (by decide) rfl

/-! ## C6: the vocabulary filter and persistence -/

theorem slotInsert_mem_inv (lid : Nat) (d : DB) (pf : String × String) (row : DerivedRow)
    (h : row ∈ (slotInsert lid d pf).derived_forms) :
    row ∈ d.derived_forms ∨ (row.form ≠ "" ∧ row.form ≠ "N/A") := by
  unfold slotInsert at h
  split at h
  · rename_i hc
    rw [insertDerived_derived_forms] at h
    rcases List.mem_append.mp h with h | h
    · exact Or.inl h
    · right
      have : row = ⟨d.nextDerivedId, lid, pf.2, pf.1, "morphological"⟩ := by
        simpa using h
      rw [this]
      exact hc
  · exact Or.inl h

theorem foldlSlot_mem_inv (lid : Nat) :
    ∀ (l : List (String × String)) (d : DB) (row : DerivedRow),
      row ∈ (l.foldl (slotInsert lid) d).derived_forms →
      row ∈ d.derived_forms ∨ (row.form ≠ "" ∧ row.form ≠ "N/A") := by
  intro l
  induction l with
  | nil => intro d row h; exact Or.inl h
  | cons pf rest ih =>
    intro d row h
    rcases ih (slotInsert lid d pf) row h with h' | h'
    · exact slotInsert_mem_inv lid d pf row h'
    · exact Or.inr h'

theorem insertTermsStep_mem_inv (db : DB) (item : String × Forms) (row : DerivedRow)
    (h : row ∈ (insertTermsStep db item).derived_forms) :
    row ∈ db.derived_forms ∨ (row.form ≠ "" ∧ row.form ≠ "N/A") := by
  simp only [insertTermsStep] at h
  cases hl : lookupWordId (insertWord db item.1) item.1 with
  | none =>
    rw [hl] at h
    simp only [insertWord_derived_forms] at h
    exact Or.inl h
  | some lid =>
    rw [hl] at h
    rcases foldlSlot_mem_inv lid (formsList item.2) (insertWord db item.1) row h with h' | h'
    · rw [insertWord_derived_forms] at h'
      exact Or.inl h'
    · exact Or.inr h'

theorem insert_terms_mem_inv :
    ∀ (terms : List (String × Forms)) (db : DB) (row : DerivedRow),
      row ∈ (insert_terms db terms).derived_forms →
      row ∈ db.derived_forms ∨ (row.form ≠ "" ∧ row.form ≠ "N/A") := by
  intro terms
  induction terms with
  | nil => intro db row h; exact Or.inl h
  | cons item rest ih =>
    intro db row h
    rcases ih (insertTermsStep db item) row h with h' | h'
    · exact insertTermsStep_mem_inv db item row h'
    · exact Or.inr h'

theorem foldlSlot_adds (lid : Nat) (slot s : String)
    (h0 : s ≠ "") (h1 : s ≠ "N/A") (l1 l2 : List (String × String)) (d : DB) :
    ∃ row, row ∈ ((l1 ++ (slot, s) :: l2).foldl (slotInsert lid) d).derived_forms ∧
      row.form = s ∧ row.pos = slot ∧ row.lemma_id = lid := by
  rw [List.foldl_append]
  have hfire : slotInsert lid (l1.foldl (slotInsert lid) d) (slot, s) =
      insertDerived (l1.foldl (slotInsert lid) d) lid s slot := by
    unfold slotInsert
    rw [if_pos ⟨h0, h1⟩]
  refine ⟨⟨(l1.foldl (slotInsert lid) d).nextDerivedId, lid, s, slot, "morphological"⟩,
    ?_, rfl, rfl, rfl⟩
  refine (foldlSlot_extends lid l2 _).subset ?_
  rw [hfire, insertDerived_derived_forms]
  exact List.mem_append_right _ (List.mem_singleton_self _)

/-- C6, counterexample: an empty-string candidate that is present in the
supplied vocabulary is ≠ 'N/A' and survives validation verbatim in the
chunk result, yet is NOT persisted — `insert_terms` skips it because
`if form and form != 'N/A'` is false for the empty string.  So "a
candidate present in the vocabulary is kept and persisted verbatim"
fails at this input. -/
theorem empty_form_not_persisted_cex :
    ("" ∈ ([""] : List String)) ∧ ("" : String) ≠ "N/A" ∧
    process_chunk [""] (some respEmptyForm) = [("casa", ⟨"", "N/A", "N/A"⟩)] ∧
    (mainChunkStep ⟨[], [], 1, 1⟩ [""] (some respEmptyForm)).derived_forms = [] ∧
    (mainChunkStep ⟨[], [], 1, 1⟩ [""] (some respEmptyForm)).words =
      [⟨1, "casa", "n"⟩] := by
  exact ⟨List.mem_singleton_self _, by decide, rfl, rfl, rfl⟩

/-- C6, amended: for every candidate derived form other than the
sentinel 'N/A': a candidate string absent from the vocabulary is
downgraded to 'N/A' by validation, and so is any hashable non-string
candidate (number, boolean or null — never members of a set of
strings); an unhashable candidate (a JSON array or object) instead
makes the membership test raise, dropping that entry and the rest of
its chunk; every row `insert_terms` adds carries a form that is
neither 'N/A' nor empty, so a downgraded candidate is never inserted;
a candidate string present in the vocabulary is kept verbatim in the
chunk result and, provided it is non-empty, persisted verbatim as the
form text — an empty-string candidate, even when present in the
vocabulary, is skipped at persistence (the guard
`if form and form != 'N/A'` is false for it). -/
theorem validation_filter_and_persistence (paisa : List String) (db : DB)
    (terms : List (String × Forms)) (w : String) (wr : WordRow) (f : Forms)
    (slot s : String)
    (hw : db.words.find? (fun x => x.lemma_ = w) = some wr) :
    (∀ t : String, t ≠ "N/A" → t ∉ paisa → validateVal paisa (.jstr t) = some "N/A") ∧
    (validateVal paisa .jnull = some "N/A" ∧
      (∀ b, validateVal paisa (.jbool b) = some "N/A") ∧
      (∀ n, validateVal paisa (.jnum n) = some "N/A")) ∧
    ((∀ xs, validateVal paisa (.jarr xs) = none) ∧
      (∀ fs, validateVal paisa (.jobj fs) = none)) ∧
    (∀ fields m mf, getField fields "morpho" = some m → m.truthy = true →
      m = .jobj mf →
      (validateVal paisa (morphoGet mf "v") = none ∨
       validateVal paisa (morphoGet mf "a") = none ∨
       validateVal paisa (morphoGet mf "r") = none) →
      processItem paisa (.jobj fields) = .err) ∧
    (∀ t, t ∈ paisa → validateVal paisa (.jstr t) = some t) ∧
    (∀ row, row ∈ (insert_terms db terms).derived_forms →
      row ∈ db.derived_forms ∨ (row.form ≠ "" ∧ row.form ≠ "N/A")) ∧
    ((slot, s) ∈ formsList f → s ≠ "N/A" → s ≠ "" →
      ∃ row, row ∈ (insert_terms db [(w, f)]).derived_forms ∧
        row.form = s ∧ row.pos = slot ∧ row.lemma_id = wr.id) := by
  refine ⟨?_, ⟨rfl, fun b => rfl, fun n => rfl⟩, ⟨fun xs => rfl, fun fs => rfl⟩,
    ?_, ?_, ?_, ?_⟩
  · intro t ht hnot
    simp [validateVal, ht, hnot]
  · intro fields m mf hget htr hm hdisj
    subst hm
    have hk : hasKey fields "morpho" = true := by
      unfold getField at hget
      obtain ⟨p, hp, -⟩ := Option.map_eq_some'.mp hget
      unfold hasKey
      rw [hp]
      rfl
    rcases hdisj with h | h | h
    · simp [processItem, hk, hget, htr, h]
    · cases hv : validateVal paisa (morphoGet mf "v") with
      | none => simp [processItem, hk, hget, htr, hv]
      | some v => simp [processItem, hk, hget, htr, hv, h]
    · cases hv : validateVal paisa (morphoGet mf "v") with
      | none => simp [processItem, hk, hget, htr, hv]
      | some v =>
        cases ha : validateVal paisa (morphoGet mf "a") with
        | none => simp [processItem, hk, hget, htr, hv, ha]
        | some a => simp [processItem, hk, hget, htr, hv, ha, h]
  · intro t ht
    by_cases hna : t = "N/A"
    · simp [validateVal, hna]
    · simp [validateVal, hna, ht]
  · intro row h
    exact insert_terms_mem_inv terms db row h
  · intro hslot h1 h0
    obtain ⟨l1, l2, hdecomp⟩ := List.append_of_mem hslot
    rw [insert_terms_single db w f wr hw, hdecomp]
    exact foldlSlot_adds wr.id slot s h0 h1 l1 l2 db

theorem validation_filter_and_persistence_witness :
    (∀ t : String, t ≠ "N/A" → t ∉ ["allegro"] →
      validateVal ["allegro"] (.jstr t) = some "N/A") ∧
    (validateVal ["allegro"] .jnull = some "N/A" ∧
      (∀ b, validateVal ["allegro"] (.jbool b) = some "N/A") ∧
      (∀ n, validateVal ["allegro"] (.jnum n) = some "N/A")) ∧
    ((∀ xs, validateVal ["allegro"] (.jarr xs) = none) ∧
      (∀ fs, validateVal ["allegro"] (.jobj fs) = none)) ∧
    (∀ fields m mf, getField fields "morpho" = some m → m.truthy = true →
      m = .jobj mf →
      (validateVal ["allegro"] (morphoGet mf "v") = none ∨
       validateVal ["allegro"] (morphoGet mf "a") = none ∨
       validateVal ["allegro"] (morphoGet mf "r") = none) →
      processItem ["allegro"] (.jobj fields) = .err) ∧
    (∀ t, t ∈ ["allegro"] → validateVal ["allegro"] (.jstr t) = some t) ∧
    (∀ row, row ∈ (insert_terms ⟨[⟨1, "allegria", "n"⟩], [], 2, 1⟩
        [("allegria", ⟨"allegro", "N/A", "N/A"⟩)]).derived_forms →
      row ∈ (⟨[⟨1, "allegria", "n"⟩], [], 2, 1⟩ : DB).derived_forms ∨
        (row.form ≠ "" ∧ row.form ≠ "N/A")) ∧
    (("a", "allegro") ∈ formsList ⟨"allegro", "N/A", "N/A"⟩ → "allegro" ≠ "N/A" →
      "allegro" ≠ "" →
      ∃ row, row ∈ (insert_terms ⟨[⟨1, "allegria", "n"⟩], [], 2, 1⟩
          [("allegria", ⟨"allegro", "N/A", "N/A"⟩)]).derived_forms ∧
        row.form = "allegro" ∧ row.pos = "a" ∧ row.lemma_id = 1) :=
  validation_filter_and_persistence ["allegro"] ⟨[⟨1, "allegria", "n"⟩], [], 2, 1⟩
    [("allegria", ⟨"allegro", "N/A", "N/A"⟩)] "allegria" ⟨1, "allegria", "n"⟩
    ⟨"allegro", "N/A", "N/A"⟩ "a" "allegro" (by decide)

/-! ## Lemmas about the reconciliation workflow -/

theorem collectToDelete_cons_none (imap : List (String × JValue)) (auto : Bool)
    (cf : String → String → Bool) (out : JValue) (rest : List JValue)
    (m : List (String × String)) (h : processOutput imap auto cf out = .ok none) :
    collectToDelete imap auto cf (out :: rest) m = collectToDelete imap auto cf rest m := by
  simp [collectToDelete, h]

theorem collectToDelete_cons_some (imap : List (String × JValue)) (auto : Bool)
    (cf : String → String → Bool) (out : JValue) (rest : List JValue)
    (m : List (String × String)) (d r : String)
    (h : processOutput imap auto cf out = .ok (some (d, r))) :
    collectToDelete imap auto cf (out :: rest) m =
      collectToDelete imap auto cf rest (dictInsert m d r) := by
  simp [collectToDelete, h]

theorem confirmedPairs_cons_none (imap : List (String × JValue)) (auto : Bool)
    (cf : String → String → Bool) (out : JValue) (rest : List JValue)
    (h : processOutput imap auto cf out = .ok none) :
    confirmedPairs imap auto cf (out :: rest) = confirmedPairs imap auto cf rest := by
  simp [confirmedPairs, h]

theorem confirmedPairs_cons_some (imap : List (String × JValue)) (auto : Bool)
    (cf : String → String → Bool) (out : JValue) (rest : List JValue)
    (p : String × String) (ps : List (String × String))
    (h : processOutput imap auto cf out = .ok (some p))
    (hrest : confirmedPairs imap auto cf rest = .ok ps) :
    confirmedPairs imap auto cf (out :: rest) = .ok (p :: ps) := by
  simp [confirmedPairs, h, hrest]

theorem dictLookup_cons {α : Type} (a : String) (b : α) (m : List (String × α)) (d : String) :
    dictLookup ((a, b) :: m) d = if a = d then some b else dictLookup m d := by
  unfold dictLookup
  by_cases h : a = d
  · rw [List.find?_cons_of_pos _ (by simp [h]), if_pos h]
    rfl
  · rw [List.find?_cons_of_neg _ (by simp [h]), if_neg h]

theorem dictInsert_keys_sub {α : Type} :
    ∀ (m : List (String × α)) (k : String) (v : α) (x : String),
      x ∈ (dictInsert m k v).map Prod.fst → x = k ∨ x ∈ m.map Prod.fst := by
  intro m k v
  induction m with
  | nil =>
    intro x hx
    simp [dictInsert] at hx
    exact Or.inl hx
  | cons p rest ih =>
    intro x hx
    obtain ⟨k', v'⟩ := p
    simp only [dictInsert] at hx
    by_cases hk : k' = k
    · rw [if_pos hk] at hx
      simp only [List.map_cons] at hx ⊢
      rcases List.mem_cons.mp hx with hx | hx
      · exact Or.inr (List.mem_cons.mpr (Or.inl hx))
      · exact Or.inr (List.mem_cons.mpr (Or.inr hx))
    · rw [if_neg hk] at hx
      simp only [List.map_cons] at hx ⊢
      rcases List.mem_cons.mp hx with hx | hx
      · exact Or.inr (List.mem_cons.mpr (Or.inl hx))
      · rcases ih x hx with hx' | hx'
        · exact Or.inl hx'
        · exact Or.inr (List.mem_cons.mpr (Or.inr hx'))

theorem dictInsert_keys_nodup {α : Type} :
    ∀ (m : List (String × α)) (k : String) (v : α),
      (m.map Prod.fst).Nodup → ((dictInsert m k v).map Prod.fst).Nodup := by
  intro m k v
  induction m with
  | nil => intro _; simp [dictInsert]
  | cons p rest ih =>
    intro hnd
    obtain ⟨k', v'⟩ := p
    simp only [List.map_cons, List.nodup_cons] at hnd
    simp only [dictInsert]
    by_cases hk : k' = k
    · rw [if_pos hk]
      simp only [List.map_cons, List.nodup_cons]
      exact hnd
    · rw [if_neg hk]
      simp only [List.map_cons, List.nodup_cons]
      refine ⟨?_, ih hnd.2⟩
      intro hx
      rcases dictInsert_keys_sub rest k v k' hx with h | h
      · exact hk h
      · exact hnd.1 h

theorem mem_dictLookup_of_nodup {α : Type} :
    ∀ (m : List (String × α)) (d : String) (r : α),
      (m.map Prod.fst).Nodup → (d, r) ∈ m → dictLookup m d = some r := by
  intro m
  induction m with
  | nil => intro d r _ hm; cases hm
  | cons p rest ih =>
    intro d r hnd hm
    obtain ⟨k, v⟩ := p
    simp only [List.map_cons, List.nodup_cons] at hnd
    rcases List.mem_cons.mp hm with he | hm'
    · obtain ⟨rfl, rfl⟩ : d = k ∧ r = v := by simpa using he
      rw [dictLookup_cons, if_pos rfl]
    · have hdk : k ≠ d := by
        intro hkd
        exact hnd.1 (hkd ▸ List.mem_map.mpr ⟨(d, r), hm', rfl⟩)
      rw [dictLookup_cons, if_neg hdk]
      exact ih d r hnd.2 hm'

theorem collect_keys_nodup (imap : List (String × JValue)) (auto : Bool)
    (confirmFn : String → String → Bool) :
    ∀ (outs : List JValue) (m m' : List (String × String)),
      collectToDelete imap auto confirmFn outs m = .ok m' →
      (m.map Prod.fst).Nodup → (m'.map Prod.fst).Nodup := by
  intro outs
  induction outs with
  | nil =>
    intro m m' h hm
    cases h
    exact hm
  | cons out rest ih =>
    intro m m' h hm
    simp only [collectToDelete] at h
    cases hpo : processOutput imap auto confirmFn out with
    | exn => rw [hpo] at h; cases h
    | ok op =>
      rw [hpo] at h
      cases op with
      | none => exact ih m m' h hm
      | some p =>
        obtain ⟨d, r⟩ := p
        exact ih _ m' h (dictInsert_keys_nodup m d r hm)

theorem buildDeletionsAux_eq (db : DB) :
    ∀ (m : List (String × String)) (acc : List (String × String × Nat)),
      m.foldl (fun acc p => acc ++ pairDeletions db p.1 p.2) acc =
        acc ++ m.flatMap (fun p => pairDeletions db p.1 p.2) := by
  intro m
  induction m with
  | nil => intro acc; simp
  | cons p rest ih =>
    intro acc
    simp only [List.foldl, List.flatMap_cons]
    rw [ih, List.append_assoc]

theorem buildDeletions_eq_flatMap (db : DB) (m : List (String × String)) :
    buildDeletions db m = m.flatMap (fun p => pairDeletions db p.1 p.2) := by
  unfold buildDeletions
  rw [buildDeletionsAux_eq db m [], List.nil_append]

theorem pairDeletions_comp (db : DB) (a b : String) (t : String × String × Nat)
    (ht : t ∈ pairDeletions db a b) : t.1 = a ∧ t.2.1 = b := by
  unfold pairDeletions at ht
  cases hw : wordLookupNoCase db b with
  | none => rw [hw] at ht; cases ht
  | some w =>
    rw [hw] at ht
    obtain ⟨r, _, rfl⟩ := List.mem_map.mp ht
    exact ⟨rfl, rfl⟩

theorem buildDeletions_filter (db : DB) :
    ∀ (m : List (String × String)), (m.map Prod.fst).Nodup →
      ∀ (d r : String), (d, r) ∈ m →
      (buildDeletions db m).filter (fun t => t.1 == d) = pairDeletions db d r := by
  intro m
  induction m with
  | nil => intro _ d r hm; cases hm
  | cons p rest ih =>
    intro hnd d r hm
    obtain ⟨k, v⟩ := p
    simp only [List.map_cons, List.nodup_cons] at hnd
    rw [buildDeletions_eq_flatMap, List.flatMap_cons, List.filter_append]
    rcases List.mem_cons.mp hm with he | hm'
    · obtain ⟨rfl, rfl⟩ : d = k ∧ r = v := by simpa using he
      have h1 : (pairDeletions db d r).filter (fun t => t.1 == d) = pairDeletions db d r := by
        apply List.filter_eq_self.mpr
        intro t ht
        have hc := (pairDeletions_comp db d r t ht).1
        simp [hc]
      have h2 : ((rest.flatMap (fun p => pairDeletions db p.1 p.2)).filter
          (fun t => t.1 == d)) = [] := by
        apply List.filter_eq_nil.mpr
        intro t ht
        obtain ⟨p', hp', htp⟩ := List.mem_flatMap.mp ht
        have hc := (pairDeletions_comp db p'.1 p'.2 t htp).1
        have hne : p'.1 ≠ d := by
          intro hpd
          exact hnd.1 (hpd ▸ List.mem_map.mpr ⟨p', hp', rfl⟩)
        simp [hc, hne]
      rw [h1, h2, List.append_nil]
    · have hkd : k ≠ d := by
        intro hkd
        exact hnd.1 (hkd ▸ List.mem_map.mpr ⟨(d, r), hm', rfl⟩)
      have h1 : (pairDeletions db k v).filter (fun t => t.1 == d) = [] := by
        apply List.filter_eq_nil.mpr
        intro t ht
        have hc := (pairDeletions_comp db k v t ht).1
        simp [hc, hkd]
      rw [h1, List.nil_append]
      have := ih hnd.2 d r hm'
      rw [buildDeletions_eq_flatMap] at this
      exact this

theorem reconcile_ok_shape (inputs outputs : List JValue) (db : DB) (autoConfirm : Bool)
    (confirmFn : String → String → Bool) (res : RunResult)
    (h : reconcile inputs outputs db autoConfirm confirmFn = .ok res) :
    res.db = db ∧ res.deletions = buildDeletions db res.toDelete ∧
    (res.sqlFile = none ∨ res.sqlFile = some (res.deletions.map renderDelete)) ∧
    (res.toDelete.map Prod.fst).Nodup := by
  unfold reconcile at h
  split at h
  · cases h
  · rename_i imap h1
    split at h
    · cases h
    · rename_i m h2
      have hnd : (m.map Prod.fst).Nodup :=
        collect_keys_nodup imap autoConfirm confirmFn outputs [] m h2 (by simp)
      split at h
      · rename_i hm
        cases h
        have hm' : m = [] := by
          cases m with
          | nil => rfl
          | cons a t => simp at hm
        refine ⟨rfl, ?_, Or.inl rfl, hnd⟩
        rw [hm']
        rfl
      · split at h
        · cases h
          exact ⟨rfl, rfl, Or.inl rfl, hnd⟩
        · cases h
          exact ⟨rfl, rfl, Or.inr rfl, hnd⟩

/-- C1: a run of `dbRelationCleanup.main` that returns normally leaves
the store untouched, whatever the input/output records, the autoConfirm
setting and the number of candidates found: every statement it executes
against the store is a SELECT, so the `derived_forms` table (all its
rows, hence its row count) is unchanged; the only write is the
`deletions.sql` review artifact recorded in `sqlFile`.  (A run that dies
on an exception touches the store even less: the model aborts it before
any further store access.) -/
theorem reconcile_never_deletes (inputs outputs : List JValue) (db : DB)
    (autoConfirm : Bool) (confirmFn : String → String → Bool) (res : RunResult)
    (h : reconcile inputs outputs db autoConfirm confirmFn = .ok res) :
    res.db = db ∧ res.db.derived_forms = db.derived_forms ∧
    res.db.derived_forms.length = db.derived_forms.length := by
  have hs := reconcile_ok_shape inputs outputs db autoConfirm confirmFn res h
  exact ⟨hs.1, by rw [hs.1], by rw [hs.1]⟩

theorem reconcile_never_deletes_witness :
    resW.db = dbW ∧ resW.db.derived_forms = dbW.derived_forms ∧
    resW.db.derived_forms.length = dbW.derived_forms.length :=
  reconcile_never_deletes [inRecW] [outRecW] dbW true (fun _ _ => false) resW (by rfl)

/-- C7: for every confirmed `(derived, root)` pair of a completed run,
if the root lemma matches a `words` row case-insensitively (the first
such row, as `fetchone` takes it) then the run's deletion plan contains
exactly one candidate — and the artifact exactly one DELETE line per
candidate — per `derived_forms` row whose `lemma_id` equals that word's
id, regardless of the row's form text; if the root lemma is absent the
pair contributes nothing (and likewise, with no matching derived rows
the filtered plan is the empty map over no rows). -/
theorem reconcile_one_candidate_per_row (inputs outputs : List JValue) (db : DB)
    (autoConfirm : Bool) (confirmFn : String → String → Bool) (res : RunResult)
    (h : reconcile inputs outputs db autoConfirm confirmFn = .ok res)
    (d r : String) (hmem : (d, r) ∈ res.toDelete) :
    (∀ w, wordLookupNoCase db r = some w →
      res.deletions.filter (fun t => t.1 == d) =
        (db.derived_forms.filter (fun row => row.lemma_id == w.id)).map
          (fun row => (d, r, row.id))) ∧
    (wordLookupNoCase db r = none →
      res.deletions.filter (fun t => t.1 == d) = []) ∧
    (∀ lines, res.sqlFile = some lines → lines = res.deletions.map renderDelete) := by
  have hs := reconcile_ok_shape inputs outputs db autoConfirm confirmFn res h
  have hfilter : res.deletions.filter (fun t => t.1 == d) = pairDeletions db d r := by
    rw [hs.2.1]
    exact buildDeletions_filter db res.toDelete hs.2.2.2 d r hmem
  refine ⟨?_, ?_, ?_⟩
  · intro w hw
    rw [hfilter]
    unfold pairDeletions derivedByLemmaId
    rw [hw]
  · intro hw
    rw [hfilter]
    unfold pairDeletions
    rw [hw]
  · intro lines hlines
    rcases hs.2.2.1 with hnone | hsome
    · rw [hnone] at hlines; cases hlines
    · rw [hsome] at hlines
      cases hlines
      rfl

theorem reconcile_one_candidate_per_row_witness :
    (∀ w, wordLookupNoCase dbW "casa" = some w →
      resW.deletions.filter (fun t => t.1 == "casalingo") =
        (dbW.derived_forms.filter (fun row => row.lemma_id == w.id)).map
          (fun row => ("casalingo", "casa", row.id))) ∧
    (wordLookupNoCase dbW "casa" = none →
      resW.deletions.filter (fun t => t.1 == "casalingo") = []) ∧
    (∀ lines, resW.sqlFile = some lines → lines = resW.deletions.map renderDelete) :=
  reconcile_one_candidate_per_row [inRecW] [outRecW] dbW true (fun _ _ => false) resW
    (by rfl) "casalingo" "casa" (by decide)

theorem collect_eq_foldl (imap : List (String × JValue)) (auto : Bool)
    (confirmFn : String → String → Bool) :
    ∀ (outs : List JValue) (ps : List (String × String)) (m : List (String × String)),
      confirmedPairs imap auto confirmFn outs = .ok ps →
      collectToDelete imap auto confirmFn outs m =
        .ok (ps.foldl (fun acc p => dictInsert acc p.1 p.2) m) := by
  intro outs
  induction outs with
  | nil =>
    intro ps m h
    cases h
    rfl
  | cons out rest ih =>
    intro ps m h
    cases hpo : processOutput imap auto confirmFn out with
    | exn =>
      rw [show confirmedPairs imap auto confirmFn (out :: rest) = .exn by
        simp [confirmedPairs, hpo]] at h
      cases h
    | ok op =>
      cases op with
      | none =>
        rw [confirmedPairs_cons_none imap auto confirmFn out rest hpo] at h
        rw [collectToDelete_cons_none imap auto confirmFn out rest m hpo]
        exact ih ps m h
      | some p =>
        obtain ⟨d, r⟩ := p
        cases hrest : confirmedPairs imap auto confirmFn rest with
        | exn =>
          rw [show confirmedPairs imap auto confirmFn (out :: rest) = .exn by
            simp [confirmedPairs, hpo, hrest]] at h
          cases h
        | ok ps' =>
          rw [confirmedPairs_cons_some imap auto confirmFn out rest (d, r) ps' hpo hrest] at h
          cases h
          rw [collectToDelete_cons_some imap auto confirmFn out rest m d r hpo]
          simp only [List.foldl]
          exact ih ps' (dictInsert m d r) hrest

theorem dictLookup_dictInsert {α : Type} :
    ∀ (m : List (String × α)) (k : String) (v : α) (d : String),
      dictLookup (dictInsert m k v) d = if k = d then some v else dictLookup m d := by
  intro m
  induction m with
  | nil =>
    intro k v d
    simp only [dictInsert]
    rw [dictLookup_cons]
  | cons p rest ih =>
    intro k v d
    obtain ⟨k', v'⟩ := p
    simp only [dictInsert]
    by_cases hk : k' = k
    · rw [if_pos hk]
      subst hk
      rw [dictLookup_cons, dictLookup_cons]
      by_cases hd : k' = d <;> simp [hd]
    · rw [if_neg hk]
      rw [dictLookup_cons, dictLookup_cons]
      by_cases hd : k' = d
      · have hkd : ¬(k = d) := fun he => hk (hd.trans he.symm)
        simp [hd, hkd]
      · simp [hd, ih k v d]

theorem foldl_dictInsert_lookup :
    ∀ (ps : List (String × String)) (m : List (String × String)) (d : String),
      dictLookup (ps.foldl (fun acc p => dictInsert acc p.1 p.2) m) d =
        ps.foldl (fun acc p => if p.1 = d then some p.2 else acc) (dictLookup m d) := by
  intro ps
  induction ps with
  | nil => intro m d; rfl
  | cons p rest ih =>
    intro m d
    simp only [List.foldl]
    rw [ih]
    congr 1
    rw [dictLookup_dictInsert]

/-- C10 (implicit): confirmed deletion candidates are accumulated in a
dict keyed by the derived term alone (`to_delete[derived] = root`), so
when two or more confirmed output records share a derived term, only
the last-processed root survives (`lastRootFor`), earlier confirmed
pairs for that derived term are silently dropped, and the deletion plan
never contains two candidates with the same derived term but different
roots. -/
theorem reconcile_last_root_wins (inputs outputs : List JValue) (db : DB)
    (autoConfirm : Bool) (confirmFn : String → String → Bool) (res : RunResult)
    (imap : List (String × JValue)) (ps : List (String × String)) (d : String)
    (h : reconcile inputs outputs db autoConfirm confirmFn = .ok res)
    (him : build_input_map inputs = .ok imap)
    (hps : confirmedPairs imap autoConfirm confirmFn outputs = .ok ps) :
    dictLookup res.toDelete d = lastRootFor ps d ∧
    (∀ r i r' i', (d, r, i) ∈ res.deletions → (d, r', i') ∈ res.deletions → r = r') := by
  have hs := reconcile_ok_shape inputs outputs db autoConfirm confirmFn res h
  have htd : res.toDelete = ps.foldl (fun acc p => dictInsert acc p.1 p.2) [] := by
    unfold reconcile at h
    split at h
    · cases h
    · rename_i imap' h1
      rw [him] at h1
      cases h1
      split at h
      · cases h
      · rename_i m h2
        rw [collect_eq_foldl imap autoConfirm confirmFn outputs ps [] hps] at h2
        cases h2
        split at h
        · cases h; rfl
        · split at h
          · cases h; rfl
          · cases h; rfl
  constructor
  · rw [htd, foldl_dictInsert_lookup]
    rfl
  · intro r i r' i' h1 h2
    rw [hs.2.1, buildDeletions_eq_flatMap] at h1 h2
    obtain ⟨p1, hp1, ht1⟩ := List.mem_flatMap.mp h1
    obtain ⟨p2, hp2, ht2⟩ := List.mem_flatMap.mp h2
    obtain ⟨a1, b1⟩ := p1
    obtain ⟨a2, b2⟩ := p2
    have hc1 : d = a1 := (pairDeletions_comp db a1 b1 _ ht1).1
    have hc1' : r = b1 := (pairDeletions_comp db a1 b1 _ ht1).2
    have hc2 : d = a2 := (pairDeletions_comp db a2 b2 _ ht2).1
    have hc2' : r' = b2 := (pairDeletions_comp db a2 b2 _ ht2).2
    have hl1 : dictLookup res.toDelete d = some r :=
      mem_dictLookup_of_nodup _ d r hs.2.2.2 (by rw [← hc1, ← hc1'] at hp1; exact hp1)
    have hl2 : dictLookup res.toDelete d = some r' :=
      mem_dictLookup_of_nodup _ d r' hs.2.2.2 (by rw [← hc2, ← hc2'] at hp2; exact hp2)
    rw [hl1] at hl2
    injection hl2

theorem reconcile_last_root_wins_witness :
    dictLookup resX.toDelete "rallegrare" =
      lastRootFor [("rallegrare", "allegria"), ("rallegrare", "gioia")] "rallegrare" ∧
    (∀ r i r' i', ("rallegrare", r, i) ∈ resX.deletions →
      ("rallegrare", r', i') ∈ resX.deletions → r = r') :=
  reconcile_last_root_wins [inRecX1, inRecX2] [outRecX1, outRecX2] dbX true
    (fun _ _ => false) resX imapX [("rallegrare", "allegria"), ("rallegrare", "gioia")]
    "rallegrare" (by rfl) (by rfl) (by rfl)
